import Mathlib

/-!
# FFT_UGens.h : spectral frames, coordinate conversion and buffer resolution

A shallow embedding of `src/OnsetDetector/SuperCollider-Source/FFT_UGens.h`.

* Float storage of a frame is a list of values of an arbitrary type `F`; the
  per-bin conversions `ToPolarApxInPlace` / `ToComplexApxInPlace` live in
  `SC_Complex.h`, which is not part of this header, and are parameters.
* Buffer handles are float control values.  The header only compares them with
  zero, copies them and truncates them to an integer, all of which are exact on
  the value of a finite float, so a handle is represented by its value in `ℚ`.
* C operations whose behaviour is undefined (a float to integer conversion whose
  result is not representable, an access outside a storage block) return a
  `Fault`.
-/

namespace FFTUGens

/-! ## Faults and control flow -/

/-- A buffer slot: `world->mSndBufs + k` or `parent->mLocalSndBufs + k`. -/
inductive SlotRef where
  | shared (k : Nat)
  | localBuf (k : Int)
deriving DecidableEq

/-- Undefined behaviour that the embedding makes explicit. -/
inductive Fault where
  /-- float to integer conversion whose truncated value is not representable -/
  | castOutOfRange
  /-- dereference of a buffer slot that is not inside its pool -/
  | bufOutOfBounds (b : SlotRef)
  /-- access to float index `i` outside the storage of a frame -/
  | dataOutOfBounds (i : Nat)
deriving DecidableEq

/-- Result of a statement block expanded inside a unit's calc function:
`returned` is an executed `return;`, `next` falls through with the locals the
block declared. -/
inductive Flow (σ α : Type) where
  | returned (s : σ)
  | next (s : σ) (locals : α)

/-! ## Frames -/

/-- Modelled from the spec: `SndBuf` is declared in SC_SndBuf.h, which is not part
of this header.  Only the three fields the header reads or writes are kept:
`data` (the float storage: dc, nyq, then two floats per bin), `samples` (an
`int`) and `coord` (the coordinate tag, of a type `C` left open). -/
structure SndBuf (F C : Type) where
  data : List F
  samples : Int
  coord : C

/-- The names this header uses but does not define: the two coordinate tags
(enumerators, hence distinct) and the two per-bin in-place conversions of
SC_Complex.h, each rewriting the two floats of one bin. -/
structure Env (F C : Type) where
  coord_Complex : C
  coord_Polar : C
  distinct : coord_Complex ≠ coord_Polar
  ToPolarApxInPlace : F × F → F × F
  ToComplexApxInPlace : F × F → F × F

/-- The frame storage holds exactly `samples` floats. -/
def SndBuf.WellFormed {F C : Type} (buf : SndBuf F C) : Prop :=
  buf.samples = (buf.data.length : Int)

/-- The bin count `int numbins = (buf->samples - 2) >> 1;` (arithmetic shift). -/
def numbinsOf (samples : Int) : Int := (samples - 2) >>> (1 : Nat)

/-- The call `p->bin[i].f()` : bin `i` occupies float indices `2 + 2 i` and `3 + 2 i`
of the storage (after `dc` and `nyq`); both are read, converted and written
back. -/
def binInPlace {F : Type} (f : F × F → F × F) (data : List F) (i : Nat) :
    Except Fault (List F) :=
  match data[2 + 2 * i]?, data[3 + 2 * i]? with
  | some a, some b =>
      .ok ((data.set (2 + 2 * i) (f (a, b)).1).set (3 + 2 * i) (f (a, b)).2)
  | none, _ => .error (.dataOutOfBounds (2 + 2 * i))
  | some _, none => .error (.dataOutOfBounds (3 + 2 * i))

/-- The loop `for (int i = 0; i < n; ++i) p->bin[i].f();` -/
def forBins {F : Type} (f : F × F → F × F) : Nat → List F → Except Fault (List F)
  | 0, data => .ok data
  | n + 1, data => do
      let d ← forBins f n data
      binInPlace f d n

/-- Function `ToPolarApx(SndBuf* buf)` (lines 45-56); the returned pointer is
`buf->data`, so the updated buffer is returned. -/
def ToPolarApx {F C : Type} [DecidableEq C] (env : Env F C) (buf : SndBuf F C) :
    Except Fault (SndBuf F C) :=
  if buf.coord = env.coord_Complex then do
    let numbins := numbinsOf buf.samples
    let data ← forBins env.ToPolarApxInPlace numbins.toNat buf.data
    .ok { buf with data := data, coord := env.coord_Polar }
  else
    .ok buf

/-- Function `ToComplexApx(SndBuf* buf)` (lines 58-68). -/
def ToComplexApx {F C : Type} [DecidableEq C] (env : Env F C) (buf : SndBuf F C) :
    Except Fault (SndBuf F C) :=
  if buf.coord = env.coord_Polar then do
    let numbins := numbinsOf buf.samples
    let data ← forBins env.ToComplexApxInPlace numbins.toNat buf.data
    .ok { buf with data := data, coord := env.coord_Complex }
  else
    .ok buf

/-! ## Machine conversions -/

/-- Integral part of a float value (C conversions truncate toward zero). -/
def truncToInt (f : ℚ) : Int := if 0 ≤ f then ⌊f⌋ else ⌈f⌉

/-- Conversion `(uint32)f` for a float `f`: the integral part, undefined when it is not
representable in 32 unsigned bits. -/
def floatToUInt32 (f : ℚ) : Except Fault Nat :=
  if 0 ≤ truncToInt f ∧ truncToInt f < 2 ^ 32 then .ok (truncToInt f).toNat
  else .error .castOutOfRange

/-- Conversion `(int)f` for a float `f`: the integral part, undefined when it is not
representable in 32 signed bits. -/
def floatToInt32 (f : ℚ) : Except Fault Int :=
  if -(2 ^ 31) ≤ truncToInt f ∧ truncToInt f < 2 ^ 31 then .ok (truncToInt f)
  else .error .castOutOfRange

/-- Conversion `int` to `uint32`: reduction modulo `2^32`. -/
def int32ToUInt32 (x : Int) : Nat := (x % 2 ^ 32).toNat

/-- Conversion `uint32` to `int`: the two's complement reading. -/
def uint32ToInt32 (x : Nat) : Int :=
  if x % 2 ^ 32 < 2 ^ 31 then ((x % 2 ^ 32 : Nat) : Int) else ((x % 2 ^ 32 : Nat) : Int) - 2 ^ 32

/-- Subtraction `a - b` of two `uint32`: modulo `2^32`. -/
def uint32Sub (a b : Nat) : Nat := (((a : Int) - (b : Int)) % 2 ^ 32).toNat

/-! ## Units, worlds and graphs -/

/-- Modelled from the spec: `World` is declared in SC_World.h, which is not part
of this header.  Kept: `mNumSndBufs` (a `uint32`, the size of the shared pool)
and `mSndBufs` (the shared pool itself). -/
structure World (F C : Type) where
  mNumSndBufs : Nat
  mSndBufs : List (SndBuf F C)

/-- Modelled from the spec: `Graph` is declared in SC_Graph.h, which is not part
of this header.  Kept: `localBufNum` (an `int`, the number of local buffers of
the graph) and `mLocalSndBufs` (the storage of the graph-local pool). -/
structure Graph (F C : Type) where
  localBufNum : Int
  mLocalSndBufs : List (SndBuf F C)

/-- Modelled from the spec: `Unit` is declared in SC_Unit.h, which is not part of
this header (`struct PV_Unit : Unit {}`).  Kept: `mWorld`, `mParent`, the
control values `ZIN0(0)`, `ZIN0(1)` and `ZOUT0(0)` (the unit's first two input
slots and its output slot), and the scoped locks the running invocation has
taken so far. -/
structure PV_Unit (F C : Type) where
  mWorld : World F C
  mParent : Graph F C
  in0 : ℚ
  in1 : ℚ
  out0 : ℚ
  locked : List SlotRef

/-- Reading through a buffer pointer: the slot has to lie inside its pool. -/
def deref {F C : Type} (u : PV_Unit F C) : SlotRef → Option (SndBuf F C)
  | .shared k => u.mWorld.mSndBufs[k]?
  | .localBuf k => if 0 ≤ k then u.mParent.mLocalSndBufs[k.toNat]? else none

/-- Modelled from the spec: `LOCK_SNDBUF(buf)` is defined in SC_SndBuf.h, which is
not part of this header.  Spec 4.2: once resolved, the frame's storage is
locked for the duration of the current invocation by a scoped lock. -/
def LOCK_SNDBUF {F C : Type} (u : PV_Unit F C) (buf : SlotRef) : PV_Unit F C :=
  { u with locked := u.locked ++ [buf] }

/-- Modelled from the spec: `LOCK_SNDBUF2(buf1, buf2)` is defined in SC_SndBuf.h,
which is not part of this header.  Spec 4.2: the two-buffer variant locks
both. -/
def LOCK_SNDBUF2 {F C : Type} (u : PV_Unit F C) (buf1 buf2 : SlotRef) : PV_Unit F C :=
  { u with locked := u.locked ++ [buf1, buf2] }

/-- Locals declared by lines 88-107 of `PV_GET_BUF`. -/
structure BufLocals where
  ibufnum : Nat
  buf : SlotRef
deriving DecidableEq

/-- Locals declared by the whole of `PV_GET_BUF`. -/
structure PVLocals where
  ibufnum : Nat
  buf : SlotRef
  numbins : Int
deriving DecidableEq

/-- Locals declared by lines 114-147 of `PV_GET_BUF2`. -/
structure Buf2Locals where
  ibufnum1 : Nat
  ibufnum2 : Nat
  buf1 : SlotRef
  buf2 : SlotRef
deriving DecidableEq

/-- Locals declared by the whole of `PV_GET_BUF2`. -/
structure PV2Locals where
  ibufnum1 : Nat
  ibufnum2 : Nat
  buf1 : SlotRef
  buf2 : SlotRef
  numbins : Int
deriving DecidableEq

/-! ## Buffer resolution -/

/-- Block `PV_GET_BUF`, lines 88-107: validation of the handle, echo to the output
slot, truncation and choice of the buffer. -/
def PV_GET_BUF_bind {F C : Type} (u : PV_Unit F C) :
    Except Fault (Flow (PV_Unit F C) BufLocals) :=
  let fbufnum := u.in0
  if fbufnum < 0 then
    .ok (.returned { u with out0 := -1 })
  else do
    let u := { u with out0 := fbufnum }
    let ibufnum ← floatToUInt32 fbufnum
    let world := u.mWorld
    if ibufnum ≥ world.mNumSndBufs then
      let localBufNum := uint32ToInt32 (uint32Sub ibufnum world.mNumSndBufs)
      let parent := u.mParent
      if localBufNum ≤ parent.localBufNum then
        .ok (.next u ⟨ibufnum, .localBuf localBufNum⟩)
      else
        .ok (.next u ⟨ibufnum, .shared 0⟩)
    else
      .ok (.next u ⟨ibufnum, .shared ibufnum⟩)

/-- Block `PV_GET_BUF` (lines 87-109): the block above, then `LOCK_SNDBUF(buf)` and
`int numbins = (buf->samples - 2) >> 1`. -/
def PV_GET_BUF {F C : Type} (u : PV_Unit F C) :
    Except Fault (Flow (PV_Unit F C) PVLocals) := do
  match ← PV_GET_BUF_bind u with
  | .returned u1 => .ok (.returned u1)
  | .next u1 l =>
    let u2 := LOCK_SNDBUF u1 l.buf
    match deref u2 l.buf with
    | none => .error (.bufOutOfBounds l.buf)
    | some b => .ok (.next u2 ⟨l.ibufnum, l.buf, numbinsOf b.samples⟩)

/-- Block `PV_GET_BUF2`, lines 114-147: validation of both handles, echo of the first,
truncation (through `int`) and choice of the two buffers. -/
def PV_GET_BUF2_bind {F C : Type} (u : PV_Unit F C) :
    Except Fault (Flow (PV_Unit F C) Buf2Locals) :=
  let fbufnum1 := u.in0
  let fbufnum2 := u.in1
  if fbufnum1 < 0 ∨ fbufnum2 < 0 then
    .ok (.returned { u with out0 := -1 })
  else do
    let u := { u with out0 := fbufnum1 }
    let ibufnum1 := int32ToUInt32 (← floatToInt32 fbufnum1)
    let ibufnum2 := int32ToUInt32 (← floatToInt32 fbufnum2)
    let world := u.mWorld
    let buf1 : SlotRef :=
      if ibufnum1 ≥ world.mNumSndBufs then
        let localBufNum := uint32ToInt32 (uint32Sub ibufnum1 world.mNumSndBufs)
        let parent := u.mParent
        if localBufNum ≤ parent.localBufNum then .localBuf localBufNum else .shared 0
      else
        .shared ibufnum1
    let buf2 : SlotRef :=
      if ibufnum2 ≥ world.mNumSndBufs then
        let localBufNum := uint32ToInt32 (uint32Sub ibufnum2 world.mNumSndBufs)
        let parent := u.mParent
        if localBufNum ≤ parent.localBufNum then .localBuf localBufNum else .shared 0
      else
        .shared ibufnum2
    .ok (.next u ⟨ibufnum1, ibufnum2, buf1, buf2⟩)

/-- Block `PV_GET_BUF2` (lines 113-151): the block above, then
`LOCK_SNDBUF2(buf1, buf2)`, the comparison of the two sample counts and
`int numbins = (buf1->samples - 2) >> 1`. -/
def PV_GET_BUF2 {F C : Type} (u : PV_Unit F C) :
    Except Fault (Flow (PV_Unit F C) PV2Locals) := do
  match ← PV_GET_BUF2_bind u with
  | .returned u1 => .ok (.returned u1)
  | .next u1 l =>
    let u2 := LOCK_SNDBUF2 u1 l.buf1 l.buf2
    match deref u2 l.buf1, deref u2 l.buf2 with
    | none, _ => .error (.bufOutOfBounds l.buf1)
    | some _, none => .error (.bufOutOfBounds l.buf2)
    | some b1, some b2 =>
      if b1.samples ≠ b2.samples then
        .ok (.returned u2)
      else
        .ok (.next u2 ⟨l.ibufnum1, l.ibufnum2, l.buf1, l.buf2, numbinsOf b1.samples⟩)

/-- The pools of a unit are laid out as the host guarantees: the shared pool
holds `mNumSndBufs` buffers, the graph-local storage holds at least
`localBufNum` buffers, and every index of either pool is a value of the 32-bit
handle space (`mNumSndBufs` is a `uint32`, `localBufNum` an `int`). -/
def PoolsWellFormed {F C : Type} (u : PV_Unit F C) : Prop :=
  u.mWorld.mSndBufs.length = u.mWorld.mNumSndBufs ∧
  0 ≤ u.mParent.localBufNum ∧
  u.mParent.localBufNum ≤ (u.mParent.mLocalSndBufs.length : Int) ∧
  u.mParent.localBufNum < 2 ^ 31 ∧
  (u.mWorld.mNumSndBufs : Int) + u.mParent.localBufNum ≤ 2 ^ 32

/-- A slot lies inside its pool: shared slot `k` with `k < mNumSndBufs`, or
graph-local slot `k` with `0 ≤ k < localBufNum`. -/
def SlotInBounds {F C : Type} (u : PV_Unit F C) : SlotRef → Prop
  | .shared k => k < u.mWorld.mNumSndBufs
  | .localBuf k => 0 ≤ k ∧ k < u.mParent.localBufNum

/-- The locals a block left in scope, if it fell through. -/
def Flow.locals? {σ α : Type} : Flow σ α → Option α
  | .returned _ => none
  | .next _ l => some l

/-- The unit state a block left behind. -/
def Flow.state {σ α : Type} : Flow σ α → σ
  | .returned s => s
  | .next s _ => s

/-! ## Scratch memory and the degenerate calc function -/

/-- A block handed out by the real-time pool: a non-null pointer, identified by
the rank of the request that produced it, with its size in bytes. -/
structure Block where
  id : Nat
  bytes : Nat
deriving DecidableEq

/-- Modelled from the spec: the real-time memory pool of the world, reached
through `RTAlloc` (interface table, not part of this header).  Spec 6: a bounded
pool whose allocate may fail with a distinguishable failure.  Kept: the bytes
still free and the sizes of all requests made so far, oldest first. -/
structure RTPool where
  free : Nat
  requests : List Nat
deriving DecidableEq

/-- Modelled from the spec: `RTAlloc(world, size)`, not part of this header.
Spec 6: bounded allocate that returns a distinguishable failure (a null
pointer, here `none`) when the pool cannot satisfy the request. -/
def RTAlloc (pool : RTPool) (size : Nat) : Option Block × RTPool :=
  if size ≤ pool.free then
    (some ⟨pool.requests.length, size⟩,
      { free := pool.free - size, requests := pool.requests ++ [size] })
  else
    (none, { pool with requests := pool.requests ++ [size] })

/-- The calc function a unit is registered with: its own processing function or
`FFT_ClearUnitOutputs`. -/
inductive CalcFunc where
  | own
  | FFT_ClearUnitOutputs
deriving DecidableEq

/-- The diagnostic this header prints:
`"%s: alloc failed, increase server's RT memory (e.g. via ServerOptions)\n"`
with `__func__`, the name of the enclosing function. -/
inductive Diagnostic where
  | allocFailed (func : String)
deriving DecidableEq

/-- Modelled from the spec: a unit that uses `MAKE_TEMP_BUF` and
`ClearFFTUnitIfMemFailed`.  The header declares only `struct PV_Unit : Unit {}`;
the fields `m_tempbuf` (null or a block) and `m_numbins` belong to the units that
expand the block, `mCalcFunc` and `mDone` to `Unit` (SC_Unit.h).  The real-time
pool (spec 6) and the diagnostics sink (spec 6: accepts a formatted message) are
carried along as `rtPool` and `printed`. -/
structure FFTUnit (F C : Type) extends PV_Unit F C where
  m_tempbuf : Option Block
  m_numbins : Int
  mCalcFunc : CalcFunc
  mDone : Bool
  rtPool : RTPool
  printed : List Diagnostic

/-- Modelled from the spec: `Print(fmt, ...)`, not part of this header.  Spec 6:
the diagnostics sink accepts a formatted message, fire-and-forget. -/
def Print {F C : Type} (u : FFTUnit F C) (d : Diagnostic) : FFTUnit F C :=
  { u with printed := u.printed ++ [d] }

/-- Modelled from the spec: `SETCALC(func)` of SC_Unit.h, not part of this header.
Spec 6: the scheduler supports replacing a unit's processing function at
runtime. -/
def SETCALC {F C : Type} (u : FFTUnit F C) (f : CalcFunc) : FFTUnit F C :=
  { u with mCalcFunc := f }

/-- Function `FFT_ClearUnitOutputs(Unit* unit, int wrongNumSamples)` (line 74):
`ZOUT0(0) = -1;`. -/
def FFT_ClearUnitOutputs {F C : Type} (u : FFTUnit F C) (_wrongNumSamples : Int) :
    FFTUnit F C :=
  { u with out0 := -1 }

/-- Block `ClearFFTUnitIfMemFailed(condition)` (lines 76-82), expanded in the
function named `func`. -/
def ClearFFTUnitIfMemFailed {F C : Type} (func : String) (condition : Bool)
    (u : FFTUnit F C) : Flow (FFTUnit F C) Unit :=
  if !condition then
    let u := Print u (.allocFailed func)
    let u := SETCALC u .FFT_ClearUnitOutputs
    let u := { u with mDone := true }
    .returned u
  else
    .next u ()

/-- Modelled from the spec: one audio block of the scheduler, not part of this
header.  Spec 6: the scheduler invokes the unit's registered processing function
every audio block; `own` is the unit's own processing function. -/
def calcBlock {F C : Type} (own : FFTUnit F C → Int → FFTUnit F C) (inNumSamples : Int)
    (u : FFTUnit F C) : FFTUnit F C :=
  match u.mCalcFunc with
  | .own => own u inNumSamples
  | .FFT_ClearUnitOutputs => FFT_ClearUnitOutputs u inNumSamples

/-- Size argument `buf->samples * sizeof(float)`: the `int` is converted to
`size_t` (64 bits) and multiplied by 4. -/
def tempBufBytes (samples : Int) : Nat := ((samples * 4) % 2 ^ 64).toNat

/-- Block `MAKE_TEMP_BUF` (lines 153-158), expanded where `buf` and `numbins` of
`PV_GET_BUF` are in scope. -/
def MAKE_TEMP_BUF {F C : Type} (u : FFTUnit F C) (buf : SlotRef) (numbins : Int) :
    Except Fault (Flow (FFTUnit F C) Unit) :=
  if u.m_tempbuf.isNone then
    match deref u.toPV_Unit buf with
    | none => .error (.bufOutOfBounds buf)
    | some b =>
      let r := RTAlloc u.rtPool (tempBufBytes b.samples)
      let u := { u with m_tempbuf := r.1, rtPool := r.2 }
      let u := { u with m_numbins := numbins }
      .ok (.next u ())
  else if numbins ≠ u.m_numbins then
    .ok (.returned u)
  else
    .ok (.next u ())

/-! ## Concrete frames and units used to evaluate the definitions -/

/-- A rectangular frame of 6 floats (two bins) over integers. -/
def sampleFrame : SndBuf Int Nat := ⟨[10, 20, 3, 4, 5, 6], 6, 1⟩

/-- A frame of 8 floats (three bins). -/
def sampleFrame8 : SndBuf Int Nat := ⟨[0, 0, 1, 2, 3, 4, 5, 6], 8, 1⟩

/-- Tags `1` and `2`, with two simple per-bin maps standing for the
conversions. -/
def sampleEnv : Env Int Nat where
  coord_Complex := 1
  coord_Polar := 2
  distinct := by decide
  ToPolarApxInPlace := fun p => (p.1 + p.2, p.1 - p.2)
  ToComplexApxInPlace := fun p => (p.1 * 2, p.2 + 1)

/-- A unit whose world has four shared buffers and whose graph has two local
buffers; the handles are filled in by the caller. -/
def sampleUnit (h1 h2 : ℚ) : PV_Unit Int Nat where
  mWorld := ⟨4, [sampleFrame, sampleFrame, sampleFrame8, sampleFrame]⟩
  mParent := ⟨2, [sampleFrame8, sampleFrame]⟩
  in0 := h1
  in1 := h2
  out0 := 0
  locked := []

/-- A unit with the scratch fields, on top of `sampleUnit 2 0`: no scratch block
yet, its own calc function, `free` bytes left in the real-time pool. -/
def sampleFFTUnit (free : Nat) : FFTUnit Int Nat where
  toPV_Unit := sampleUnit 2 0
  m_tempbuf := none
  m_numbins := 0
  mCalcFunc := .own
  mDone := false
  rtPool := ⟨free, []⟩
  printed := []

/-- A frame of `n` floats, all zero, in rectangular mode. -/
def zeroFrame (n : Nat) : SndBuf Int Nat := ⟨List.replicate n 0, n, 1⟩

/-- A unit whose shared pool holds a frame of 128 and a frame of 129 floats. -/
def unevenUnit : PV_Unit Int Nat where
  mWorld := ⟨2, [zeroFrame 128, zeroFrame 129]⟩
  mParent := ⟨0, []⟩
  in0 := 0
  in1 := 1
  out0 := 0
  locked := []

/-! ## Lemmas on the conversion loop -/

theorem numbinsOf_eq (n : Int) : numbinsOf n = (n - 2) / 2 := by
  unfold numbinsOf
  rw [Int.shiftRight_eq_div_pow]
  norm_num

theorem numbinsOf_toNat_le (n : Int) (len : Nat) (h : n ≤ (len : Int)) :
    2 * (numbinsOf n).toNat + 2 ≤ len ∨ (numbinsOf n).toNat = 0 := by
  rw [numbinsOf_eq]
  omega

theorem binInPlace_ok {F : Type} (f : F × F → F × F) (data : List F) (i : Nat)
    (h : 3 + 2 * i < data.length) :
    ∃ d, binInPlace f data i = .ok d ∧ d.length = data.length ∧
      d[0]? = data[0]? ∧ d[1]? = data[1]? := by
  have h2 : 2 + 2 * i < data.length := by omega
  refine ⟨(data.set (2 + 2 * i) (f (data[2 + 2 * i], data[3 + 2 * i])).1).set
    (3 + 2 * i) (f (data[2 + 2 * i], data[3 + 2 * i])).2, ?_, ?_, ?_, ?_⟩
  · unfold binInPlace
    rw [List.getElem?_eq_getElem h2, List.getElem?_eq_getElem h]
  · simp
  · rw [List.getElem?_set_ne (by omega), List.getElem?_set_ne (by omega)]
  · rw [List.getElem?_set_ne (by omega), List.getElem?_set_ne (by omega)]

theorem forBins_ok {F : Type} (f : F × F → F × F) (n : Nat) (data : List F)
    (h : n = 0 ∨ 2 * n + 2 ≤ data.length) :
    ∃ d, forBins f n data = .ok d ∧ d.length = data.length ∧
      d[0]? = data[0]? ∧ d[1]? = data[1]? := by
  induction n with
  | zero => exact ⟨data, rfl, rfl, rfl, rfl⟩
  | succ k ih =>
    have hk : 2 * (k + 1) + 2 ≤ data.length := by omega
    obtain ⟨d, hd, hlen, h0, h1⟩ := ih (by omega)
    obtain ⟨e, he, helen, he0, he1⟩ := binInPlace_ok f d k (by omega)
    refine ⟨e, ?_, by omega, he0.trans h0, he1.trans h1⟩
    simp only [forBins, hd]
    exact he

theorem ToPolarApx_ok {F C : Type} [DecidableEq C] (env : Env F C) (buf : SndBuf F C)
    (hwf : buf.WellFormed) :
    ∃ b, ToPolarApx env buf = .ok b ∧ b.samples = buf.samples ∧
      b.data.length = buf.data.length ∧ b.data[0]? = buf.data[0]? ∧
      b.data[1]? = buf.data[1]? ∧ (b.coord = env.coord_Complex → False) := by
  unfold ToPolarApx
  by_cases hc : buf.coord = env.coord_Complex
  · have hn := numbinsOf_toNat_le buf.samples buf.data.length (le_of_eq hwf)
    obtain ⟨d, hd, hlen, h0, h1⟩ :=
      forBins_ok env.ToPolarApxInPlace (numbinsOf buf.samples).toNat buf.data
        (by omega)
    refine ⟨{ buf with data := d, coord := env.coord_Polar }, ?_, rfl, hlen, h0, h1, ?_⟩
    · simp only [hc, if_true, hd]
      rfl
    · intro h
      exact env.distinct h.symm
  · exact ⟨buf, by simp [hc], rfl, rfl, rfl, rfl, hc⟩

theorem ToComplexApx_ok {F C : Type} [DecidableEq C] (env : Env F C) (buf : SndBuf F C)
    (hwf : buf.WellFormed) :
    ∃ b, ToComplexApx env buf = .ok b ∧ b.samples = buf.samples ∧
      b.data.length = buf.data.length ∧ b.data[0]? = buf.data[0]? ∧
      b.data[1]? = buf.data[1]? ∧ (b.coord = env.coord_Polar → False) := by
  unfold ToComplexApx
  by_cases hc : buf.coord = env.coord_Polar
  · have hn := numbinsOf_toNat_le buf.samples buf.data.length (le_of_eq hwf)
    obtain ⟨d, hd, hlen, h0, h1⟩ :=
      forBins_ok env.ToComplexApxInPlace (numbinsOf buf.samples).toNat buf.data
        (by omega)
    refine ⟨{ buf with data := d, coord := env.coord_Complex }, ?_, rfl, hlen, h0, h1, ?_⟩
    · simp only [hc, if_true, hd]
      rfl
    · intro h
      exact env.distinct h
  · exact ⟨buf, by simp [hc], rfl, rfl, rfl, rfl, hc⟩

theorem sampleFrame_wf : sampleFrame.WellFormed := by
  simp [SndBuf.WellFormed, sampleFrame]

theorem sampleFrame8_wf : sampleFrame8.WellFormed := by
  simp [SndBuf.WellFormed, sampleFrame8]

/-! ## Lemmas on conversions and on the choice of the buffer -/

theorem truncToInt_of_nonneg (f : ℚ) (h : 0 ≤ f) : truncToInt f = ⌊f⌋ := by
  simp [truncToInt, h]

theorem truncToInt_nonneg (f : ℚ) (h : 0 ≤ f) : 0 ≤ truncToInt f := by
  rw [truncToInt_of_nonneg f h]
  exact Int.floor_nonneg.mpr h

theorem truncToInt_intCast (z : Int) : truncToInt (z : ℚ) = z := by
  unfold truncToInt
  split <;> simp

theorem floatToUInt32_ok (f : ℚ) (h : 0 ≤ f) (hlt : truncToInt f < 2 ^ 32) :
    floatToUInt32 f = .ok (truncToInt f).toNat := by
  unfold floatToUInt32
  rw [if_pos ⟨truncToInt_nonneg f h, hlt⟩]

theorem uint32Sub_of_le (a b : Nat) (hb : b ≤ a) (ha : a < 2 ^ 32) :
    uint32Sub a b = a - b := by
  unfold uint32Sub
  have h1 : (0 : Int) ≤ (a : Int) - b := by omega
  have h2 : (a : Int) - b < 2 ^ 32 := by omega
  rw [Int.emod_eq_of_lt h1 h2]
  omega

theorem uint32ToInt32_of_lt (x : Nat) (h : x < 2 ^ 31) : uint32ToInt32 x = x := by
  unfold uint32ToInt32
  have h1 : x % 2 ^ 32 = x := Nat.mod_eq_of_lt (by omega)
  rw [h1, if_pos h]

theorem localIndex_eq (a b : Nat) (hb : b ≤ a) (ha : a < 2 ^ 32) (hd : a - b < 2 ^ 31) :
    uint32ToInt32 (uint32Sub a b) = (a : Int) - b := by
  rw [uint32Sub_of_le a b hb ha, uint32ToInt32_of_lt _ hd]
  omega

theorem PV_GET_BUF_bind_nonneg {F C : Type} (u : PV_Unit F C) (h0 : 0 ≤ u.in0)
    (hlt : truncToInt u.in0 < 2 ^ 32) :
    PV_GET_BUF_bind u = .ok (.next { u with out0 := u.in0 }
      ⟨(truncToInt u.in0).toNat,
        if (truncToInt u.in0).toNat ≥ u.mWorld.mNumSndBufs then
          if uint32ToInt32 (uint32Sub (truncToInt u.in0).toNat u.mWorld.mNumSndBufs)
              ≤ u.mParent.localBufNum then
            .localBuf (uint32ToInt32 (uint32Sub (truncToInt u.in0).toNat u.mWorld.mNumSndBufs))
          else .shared 0
        else .shared (truncToInt u.in0).toNat⟩) := by
  unfold PV_GET_BUF_bind
  simp only [not_lt.mpr h0, if_false, floatToUInt32_ok u.in0 h0 hlt]
  show (if _ then _ else _) = _
  split_ifs <;> rfl

theorem PV_GET_BUF_of_bind {F C : Type} (u u1 : PV_Unit F C) (l : BufLocals)
    (b : SndBuf F C) (hb : PV_GET_BUF_bind u = .ok (.next u1 l))
    (hd : deref (LOCK_SNDBUF u1 l.buf) l.buf = some b) :
    PV_GET_BUF u = .ok (.next (LOCK_SNDBUF u1 l.buf) ⟨l.ibufnum, l.buf, numbinsOf b.samples⟩) := by
  unfold PV_GET_BUF
  rw [hb]
  show (match deref (LOCK_SNDBUF u1 l.buf) l.buf with | none => _ | some b => _) = _
  rw [hd]

theorem sampleUnit_wf (h1 h2 : ℚ) : PoolsWellFormed (sampleUnit h1 h2) := by
  simp [PoolsWellFormed, sampleUnit]

theorem truncToInt_five : truncToInt 5 = 5 := by decide
theorem truncToInt_37 : truncToInt 3.7 = 3 := by
  simp [truncToInt]; norm_num [Int.floor_eq_iff]

theorem deref_congr {F C : Type} (u v : PV_Unit F C) (hw : v.mWorld = u.mWorld)
    (hp : v.mParent = u.mParent) (b : SlotRef) : deref v b = deref u b := by
  cases b <;> simp [deref, hw, hp]

theorem PV_GET_BUF_bind_cast_fault {F C : Type} (u : PV_Unit F C) (h0 : 0 ≤ u.in0)
    (hge : ¬ truncToInt u.in0 < 2 ^ 32) :
    PV_GET_BUF_bind u = .error .castOutOfRange := by
  unfold PV_GET_BUF_bind
  simp only [not_lt.mpr h0, if_false, floatToUInt32]
  rw [if_neg (fun h => hge h.2)]
  rfl

theorem PV_GET_BUF_locals_of_bind {F C : Type} (u u1 w : PV_Unit F C) (l : BufLocals)
    (hb : PV_GET_BUF_bind u = .ok (.next u1 l))
    (hw : u1.mWorld = w.mWorld) (hp : u1.mParent = w.mParent) :
    (PV_GET_BUF u).map Flow.locals? =
      match deref w l.buf with
      | none => .error (.bufOutOfBounds l.buf)
      | some b => .ok (some ⟨l.ibufnum, l.buf, numbinsOf b.samples⟩) := by
  have hd : deref (LOCK_SNDBUF u1 l.buf) l.buf = deref w l.buf :=
    deref_congr w (LOCK_SNDBUF u1 l.buf) hw hp l.buf
  unfold PV_GET_BUF
  rw [hb]
  simp only [bind, Except.bind]
  rw [hd]
  cases deref w l.buf <;> rfl

theorem PV_GET_BUF2_bind_next {F C : Type} (u u1 : PV_Unit F C) (l : Buf2Locals)
    (hb : PV_GET_BUF2_bind u = .ok (.next u1 l)) :
    u1 = { u with out0 := u.in0 } ∧ 0 ≤ u.in0 ∧ 0 ≤ u.in1 := by
  unfold PV_GET_BUF2_bind at hb
  by_cases hneg : u.in0 < 0 ∨ u.in1 < 0
  · simp [hneg] at hb
  · simp only [hneg, if_false] at hb
    cases h1 : floatToInt32 u.in0 with
    | error e => simp [h1, bind, Except.bind] at hb
    | ok i1 =>
      cases h2 : floatToInt32 u.in1 with
      | error e => simp [h1, h2, bind, Except.bind] at hb
      | ok i2 =>
        simp only [h1, h2, bind, Except.bind] at hb
        injection hb with hb
        injection hb with hu hl
        push_neg at hneg
        exact ⟨hu.symm, hneg.1, hneg.2⟩

theorem PV_GET_BUF2_of_bind {F C : Type} (u u1 : PV_Unit F C) (l : Buf2Locals)
    (f1 f2 : SndBuf F C) (hb : PV_GET_BUF2_bind u = .ok (.next u1 l))
    (h1 : deref u l.buf1 = some f1) (h2 : deref u l.buf2 = some f2) :
    PV_GET_BUF2 u =
      if f1.samples ≠ f2.samples then
        .ok (.returned (LOCK_SNDBUF2 { u with out0 := u.in0 } l.buf1 l.buf2))
      else
        .ok (.next (LOCK_SNDBUF2 { u with out0 := u.in0 } l.buf1 l.buf2)
          ⟨l.ibufnum1, l.ibufnum2, l.buf1, l.buf2, numbinsOf f1.samples⟩) := by
  obtain ⟨hu, _, _⟩ := PV_GET_BUF2_bind_next u u1 l hb
  subst hu
  have e1 : deref (LOCK_SNDBUF2 { u with out0 := u.in0 } l.buf1 l.buf2) l.buf1 = some f1 :=
    (deref_congr u _ rfl rfl l.buf1).trans h1
  have e2 : deref (LOCK_SNDBUF2 { u with out0 := u.in0 } l.buf1 l.buf2) l.buf2 = some f2 :=
    (deref_congr u _ rfl rfl l.buf2).trans h2
  unfold PV_GET_BUF2
  rw [hb]
  simp only [bind, Except.bind]
  rw [e1, e2]

theorem int32ToUInt32_of_nonneg (t : Int) (h0 : 0 ≤ t) (h : t < 2 ^ 32) :
    int32ToUInt32 t = t.toNat := by
  unfold int32ToUInt32
  rw [Int.emod_eq_of_lt h0 h]

theorem floatToInt32_ok (f : ℚ) (h : 0 ≤ f) (hlt : truncToInt f < 2 ^ 31) :
    floatToInt32 f = .ok (truncToInt f) := by
  unfold floatToInt32
  have := truncToInt_nonneg f h
  rw [if_pos ⟨by omega, hlt⟩]

theorem PV_GET_BUF_bind_next {F C : Type} (u u1 : PV_Unit F C) (l : BufLocals)
    (hb : PV_GET_BUF_bind u = .ok (.next u1 l)) :
    u1 = { u with out0 := u.in0 } ∧ 0 ≤ u.in0 := by
  unfold PV_GET_BUF_bind at hb
  by_cases hneg : u.in0 < 0
  · simp [hneg] at hb
  · simp only [hneg, if_false] at hb
    cases h1 : floatToUInt32 u.in0 with
    | error e => simp [h1, bind, Except.bind] at hb
    | ok i1 =>
      simp only [h1, bind, Except.bind] at hb
      refine ⟨?_, not_lt.mp hneg⟩
      split_ifs at hb <;>
      · injection hb with hb
        injection hb with hu hl
        exact hu.symm

/-- Below `2^31` the two blocks choose alike: the first buffer of `PV_GET_BUF2`
is the buffer `PV_GET_BUF` chooses for the first handle, and the second buffer
is the one `PV_GET_BUF` chooses when given the second handle. -/
theorem pair_bind_agrees_below_two_pow_31 {F C : Type} (u : PV_Unit F C)
    (h0 : 0 ≤ u.in0) (h1 : 0 ≤ u.in1)
    (hlt0 : truncToInt u.in0 < 2 ^ 31) (hlt1 : truncToInt u.in1 < 2 ^ 31) :
    ∃ l1 l2 : BufLocals,
      PV_GET_BUF_bind u = .ok (.next { u with out0 := u.in0 } l1) ∧
      PV_GET_BUF_bind { u with in0 := u.in1 } =
        .ok (.next { u with in0 := u.in1, out0 := u.in1 } l2) ∧
      PV_GET_BUF2_bind u = .ok (.next { u with out0 := u.in0 }
        ⟨l1.ibufnum, l2.ibufnum, l1.buf, l2.buf⟩) := by
  have ht0 := truncToInt_nonneg u.in0 h0
  have ht1 := truncToInt_nonneg u.in1 h1
  have hneg : ¬ (u.in0 < 0 ∨ u.in1 < 0) := by
    push_neg
    exact ⟨h0, h1⟩
  refine ⟨_, _, PV_GET_BUF_bind_nonneg u h0 (by omega),
    PV_GET_BUF_bind_nonneg { u with in0 := u.in1 } h1
      (by show truncToInt u.in1 < 2 ^ 32; omega), ?_⟩
  unfold PV_GET_BUF2_bind
  simp only [hneg, if_false, floatToInt32_ok u.in0 h0 hlt0, floatToInt32_ok u.in1 h1 hlt1,
    bind, Except.bind,
    int32ToUInt32_of_nonneg _ ht0 (by omega), int32ToUInt32_of_nonneg _ ht1 (by omega)]

theorem PV_GET_BUF_bind_returned {F C : Type} (u v : PV_Unit F C)
    (hb : PV_GET_BUF_bind u = .ok (.returned v)) : u.in0 < 0 := by
  by_contra hneg
  unfold PV_GET_BUF_bind at hb
  simp only [hneg, if_false] at hb
  cases hc : floatToUInt32 u.in0 with
  | error e => simp [hc, bind, Except.bind] at hb
  | ok i =>
    simp only [hc, bind, Except.bind] at hb
    split_ifs at hb <;> simp at hb

theorem PV_GET_BUF2_bind_returned {F C : Type} (u v : PV_Unit F C)
    (hb : PV_GET_BUF2_bind u = .ok (.returned v)) : u.in0 < 0 ∨ u.in1 < 0 := by
  by_contra hneg
  unfold PV_GET_BUF2_bind at hb
  simp only [hneg, if_false] at hb
  cases h1 : floatToInt32 u.in0 with
  | error e => simp [h1, bind, Except.bind] at hb
  | ok i1 =>
    cases h2 : floatToInt32 u.in1 with
    | error e => simp [h1, h2, bind, Except.bind] at hb
    | ok i2 => simp [h1, h2, bind, Except.bind] at hb

/-- Where the fall-back does work: a handle whose local index lies strictly
between `localBufNum` and `2^31` is bound to shared slot 0 (handle `1e9` is
such a handle in any realistic world). -/
theorem fallback_to_shared_zero {F C : Type} (u : PV_Unit F C) (h0 : 0 ≤ u.in0)
    (hge : (u.mWorld.mNumSndBufs : Int) ≤ truncToInt u.in0)
    (hout : u.mParent.localBufNum < truncToInt u.in0 - (u.mWorld.mNumSndBufs : Int))
    (hlt : truncToInt u.in0 - (u.mWorld.mNumSndBufs : Int) < 2 ^ 31)
    (h32 : truncToInt u.in0 < 2 ^ 32) :
    PV_GET_BUF_bind u =
      .ok (.next { u with out0 := u.in0 } ⟨(truncToInt u.in0).toNat, .shared 0⟩) := by
  have ht := truncToInt_nonneg u.in0 h0
  have hidx : uint32ToInt32 (uint32Sub (truncToInt u.in0).toNat u.mWorld.mNumSndBufs)
      = truncToInt u.in0 - (u.mWorld.mNumSndBufs : Int) := by
    rw [localIndex_eq _ _ (by omega) (by omega) (by omega)]
    omega
  have hb := PV_GET_BUF_bind_nonneg u h0 h32
  rw [if_pos (by omega), hidx, if_neg (by omega)] at hb
  exact hb

/-- The handle `1e9` of the specification falls back to shared slot 0. -/
theorem fallback_at_1e9 :
    PV_GET_BUF (sampleUnit 1000000000 0) =
      .ok (.next (LOCK_SNDBUF { sampleUnit 1000000000 0 with out0 := 1000000000 } (.shared 0))
        ⟨1000000000, .shared 0, 2⟩) := rfl

/-- One bin in place: the two floats of bin `i` are replaced by the conversion of
the pair they held and every other float is kept. -/
theorem binInPlace_spec {F : Type} (f : F × F → F × F) (data : List F) (i : Nat)
    (a b : F) (ha : data[2 + 2 * i]? = some a) (hb : data[3 + 2 * i]? = some b) :
    ∃ d, binInPlace f data i = .ok d ∧ d.length = data.length ∧
      d[2 + 2 * i]? = some (f (a, b)).1 ∧ d[3 + 2 * i]? = some (f (a, b)).2 ∧
      ∀ j, j ≠ 2 + 2 * i → j ≠ 3 + 2 * i → d[j]? = data[j]? := by
  obtain ⟨h2, _⟩ := List.getElem?_eq_some.mp ha
  obtain ⟨h3, _⟩ := List.getElem?_eq_some.mp hb
  refine ⟨(data.set (2 + 2 * i) (f (a, b)).1).set (3 + 2 * i) (f (a, b)).2,
    ?_, by simp, ?_, ?_, ?_⟩
  · unfold binInPlace
    rw [ha, hb]
  · rw [List.getElem?_set_ne (by omega), List.getElem?_set_self h2]
  · rw [List.getElem?_set_self (by simpa using h3)]
  · intro j hj2 hj3
    rw [List.getElem?_set_ne (fun h => hj3 h.symm), List.getElem?_set_ne (fun h => hj2 h.symm)]

/-- Loop invariant of `forBins`: after `n` rounds the bins below `n` hold the
conversion of their original pair and all other floats are the original
ones. -/
theorem forBins_spec {F : Type} (f : F × F → F × F) (n : Nat) (data : List F)
    (h : n = 0 ∨ 2 * n + 2 ≤ data.length) :
    ∃ d, forBins f n data = .ok d ∧ d.length = data.length ∧
      (∀ i a b, i < n → data[2 + 2 * i]? = some a → data[3 + 2 * i]? = some b →
        d[2 + 2 * i]? = some (f (a, b)).1 ∧ d[3 + 2 * i]? = some (f (a, b)).2) ∧
      (∀ j, j < 2 ∨ 2 + 2 * n ≤ j → d[j]? = data[j]?) := by
  induction n with
  | zero =>
    exact ⟨data, rfl, rfl, fun i a b hi => absurd hi (Nat.not_lt_zero i), fun j _ => rfl⟩
  | succ k ih =>
    have hk : 2 * (k + 1) + 2 ≤ data.length := by omega
    obtain ⟨d, hd, hlen, hbins, hrest⟩ := ih (by omega)
    have h2 : 2 + 2 * k < data.length := by omega
    have h3 : 3 + 2 * k < data.length := by omega
    have ha : d[2 + 2 * k]? = some data[2 + 2 * k] := by
      rw [hrest _ (Or.inr (by omega)), List.getElem?_eq_getElem h2]
    have hb : d[3 + 2 * k]? = some data[3 + 2 * k] := by
      rw [hrest _ (Or.inr (by omega)), List.getElem?_eq_getElem h3]
    obtain ⟨e, he, helen, he2, he3, hother⟩ := binInPlace_spec f d k _ _ ha hb
    refine ⟨e, ?_, by omega, ?_, ?_⟩
    · simp only [forBins, hd]
      exact he
    · intro i a b hi hia hib
      by_cases hik : i = k
      · subst hik
        rw [List.getElem?_eq_getElem h2] at hia
        rw [List.getElem?_eq_getElem h3] at hib
        cases hia
        cases hib
        exact ⟨he2, he3⟩
      · have hlt : i < k := by omega
        obtain ⟨r1, r2⟩ := hbins i a b hlt hia hib
        rw [hother _ (by omega) (by omega), hother _ (by omega) (by omega)]
        exact ⟨r1, r2⟩
    · intro j hj
      rw [hother j (by omega) (by omega)]
      exact hrest j (by omega)

theorem convertedBins {F C : Type} (f : F × F → F × F) (buf : SndBuf F C)
    (hwf : buf.WellFormed) (hn : 2 ≤ buf.samples) :
    ∃ d, forBins f (numbinsOf buf.samples).toNat buf.data = .ok d ∧
      d.length = buf.data.length ∧
      (∀ i : Nat, (i : Int) < (buf.samples - 2) / 2 →
        ∃ re im, buf.data[2 + 2 * i]? = some re ∧ buf.data[3 + 2 * i]? = some im ∧
          d[2 + 2 * i]? = some (f (re, im)).1 ∧ d[3 + 2 * i]? = some (f (re, im)).2) ∧
      (∀ j : Nat, (j < 2 ∨ 2 + 2 * ((buf.samples - 2) / 2) ≤ (j : Int)) →
        d[j]? = buf.data[j]?) := by
  have hwf2 : buf.samples = (buf.data.length : Int) := hwf
  have hnb := numbinsOf_eq buf.samples
  obtain ⟨d, hd, hlen, hbins, hrest⟩ :=
    forBins_spec f (numbinsOf buf.samples).toNat buf.data (by rw [hnb]; omega)
  refine ⟨d, hd, hlen, ?_, ?_⟩
  · intro i hi
    have hi2 : i < (numbinsOf buf.samples).toNat := by rw [hnb]; omega
    have h2 : 2 + 2 * i < buf.data.length := by omega
    have h3 : 3 + 2 * i < buf.data.length := by omega
    exact ⟨buf.data[2 + 2 * i], buf.data[3 + 2 * i], List.getElem?_eq_getElem h2,
      List.getElem?_eq_getElem h3,
      hbins i _ _ hi2 (List.getElem?_eq_getElem h2) (List.getElem?_eq_getElem h3)⟩
  · intro j hj
    apply hrest
    rw [hnb]
    omega

theorem zeroFrame_wf (n : Nat) : (zeroFrame n).WellFormed := by
  simp [SndBuf.WellFormed, zeroFrame]

theorem tempBufBytes_eq (samples : Int) (h0 : 0 ≤ samples) (h : samples < 2 ^ 62) :
    tempBufBytes samples = 4 * samples.toNat := by
  unfold tempBufBytes
  rw [Int.emod_eq_of_lt (by omega) (by omega)]
  omega

/-- The guard applied to the scratch pointer after a failed allocation does what
`MAKE_TEMP_BUF` leaves out. -/
theorem guard_after_failed_alloc {F C : Type} (func : String) (u : FFTUnit F C)
    (h : u.m_tempbuf = none) :
    ClearFFTUnitIfMemFailed func u.m_tempbuf.isSome u =
      .returned { u with printed := u.printed ++ [.allocFailed func],
                         mCalcFunc := .FFT_ClearUnitOutputs, mDone := true } := by
  unfold ClearFFTUnitIfMemFailed
  simp [h, Print, SETCALC]

theorem binInPlace_ok_iff {F : Type} (f : F × F → F × F) (data : List F) (i : Nat) :
    (∃ d, binInPlace f data i = .ok d) ↔ 3 + 2 * i < data.length := by
  constructor
  · rintro ⟨d, hd⟩
    unfold binInPlace at hd
    by_contra hlt
    have h3 : data[3 + 2 * i]? = none := List.getElem?_eq_none (by omega)
    rw [h3] at hd
    cases h2 : data[2 + 2 * i]? <;> simp [h2] at hd
  · intro h
    obtain ⟨d, hd, _⟩ := binInPlace_ok f data i h
    exact ⟨d, hd⟩

theorem ToPolarApx_of_other_tag {F C : Type} [DecidableEq C] (env : Env F C)
    (buf : SndBuf F C) (h : buf.coord ≠ env.coord_Complex) : ToPolarApx env buf = .ok buf := by
  unfold ToPolarApx
  rw [if_neg h]

theorem ToComplexApx_of_other_tag {F C : Type} [DecidableEq C] (env : Env F C)
    (buf : SndBuf F C) (h : buf.coord ≠ env.coord_Polar) : ToComplexApx env buf = .ok buf := by
  unfold ToComplexApx
  rw [if_neg h]

theorem ToPolarApx_of_complex {F C : Type} [DecidableEq C] (env : Env F C)
    (buf : SndBuf F C) (hwf : buf.WellFormed) (hc : buf.coord = env.coord_Complex) :
    ∃ b, ToPolarApx env buf = .ok b ∧ b.coord = env.coord_Polar ∧ b.WellFormed := by
  have hn := numbinsOf_toNat_le buf.samples buf.data.length (le_of_eq hwf)
  obtain ⟨d, hd, hlen, _, _⟩ :=
    forBins_ok env.ToPolarApxInPlace (numbinsOf buf.samples).toNat buf.data (by omega)
  refine ⟨{ buf with data := d, coord := env.coord_Polar }, ?_, rfl, ?_⟩
  · unfold ToPolarApx
    simp only [hc, if_true, hd]
    rfl
  · show buf.samples = (d.length : Int)
    rw [hlen]
    exact hwf

theorem ToComplexApx_of_polar {F C : Type} [DecidableEq C] (env : Env F C)
    (buf : SndBuf F C) (hwf : buf.WellFormed) (hc : buf.coord = env.coord_Polar) :
    ∃ b, ToComplexApx env buf = .ok b ∧ b.coord = env.coord_Complex ∧ b.WellFormed := by
  have hn := numbinsOf_toNat_le buf.samples buf.data.length (le_of_eq hwf)
  obtain ⟨d, hd, hlen, _, _⟩ :=
    forBins_ok env.ToComplexApxInPlace (numbinsOf buf.samples).toNat buf.data (by omega)
  refine ⟨{ buf with data := d, coord := env.coord_Complex }, ?_, rfl, ?_⟩
  · unfold ToComplexApx
    simp only [hc, if_true, hd]
    rfl
  · show buf.samples = (d.length : Int)
    rw [hlen]
    exact hwf

/-! ## Claims on the coordinate conversion -/

/-- C1: conversion is idempotent.  On every well-formed frame `ToPolarApx`
produces a frame on which a second `ToPolarApx` changes nothing (storage,
sample count and tag all stay equal), and the same holds for `ToComplexApx`. -/
theorem conversion_idempotent {F C : Type} [DecidableEq C] (env : Env F C)
    (buf : SndBuf F C) (hwf : buf.WellFormed) :
    (∃ b, ToPolarApx env buf = .ok b ∧ ToPolarApx env b = .ok b) ∧
    (∃ b, ToComplexApx env buf = .ok b ∧ ToComplexApx env b = .ok b) := by
  constructor
  · obtain ⟨b, hb, _, _, _, _, hc⟩ := ToPolarApx_ok env buf hwf
    refine ⟨b, hb, ?_⟩
    unfold ToPolarApx
    rw [if_neg hc]
  · obtain ⟨b, hb, _, _, _, _, hc⟩ := ToComplexApx_ok env buf hwf
    refine ⟨b, hb, ?_⟩
    unfold ToComplexApx
    rw [if_neg hc]

/-- Witness of C1 on a rectangular frame with two bins. -/
theorem conversion_idempotent_witness :
    sampleFrame.WellFormed ∧
    ((∃ b, ToPolarApx sampleEnv sampleFrame = .ok b ∧ ToPolarApx sampleEnv b = .ok b) ∧
     (∃ b, ToComplexApx sampleEnv sampleFrame = .ok b ∧
        ToComplexApx sampleEnv b = .ok b)) :=
  ⟨sampleFrame_wf, conversion_idempotent sampleEnv sampleFrame sampleFrame_wf⟩

/-- C2: both conversions leave the first two floats of the storage (`dc` and
`nyq`) as they were, for every frame whose storage holds `samples` floats,
whatever its tag and its sample count. -/
theorem conversion_keeps_dc_nyq {F C : Type} [DecidableEq C] (env : Env F C)
    (buf : SndBuf F C) (hwf : buf.WellFormed) :
    (∃ b, ToPolarApx env buf = .ok b ∧ b.data[0]? = buf.data[0]? ∧
        b.data[1]? = buf.data[1]?) ∧
    (∃ b, ToComplexApx env buf = .ok b ∧ b.data[0]? = buf.data[0]? ∧
        b.data[1]? = buf.data[1]?) := by
  constructor
  · obtain ⟨b, hb, _, _, h0, h1, _⟩ := ToPolarApx_ok env buf hwf
    exact ⟨b, hb, h0, h1⟩
  · obtain ⟨b, hb, _, _, h0, h1, _⟩ := ToComplexApx_ok env buf hwf
    exact ⟨b, hb, h0, h1⟩

/-- Witness of C2 on a frame with three bins. -/
theorem conversion_keeps_dc_nyq_witness :
    sampleFrame8.WellFormed ∧
    ((∃ b, ToPolarApx sampleEnv sampleFrame8 = .ok b ∧ b.data[0]? = sampleFrame8.data[0]? ∧
        b.data[1]? = sampleFrame8.data[1]?) ∧
     (∃ b, ToComplexApx sampleEnv sampleFrame8 = .ok b ∧
        b.data[0]? = sampleFrame8.data[0]? ∧ b.data[1]? = sampleFrame8.data[1]?)) :=
  ⟨sampleFrame8_wf, conversion_keeps_dc_nyq sampleEnv sampleFrame8 sampleFrame8_wf⟩

/-! ## Claims on buffer resolution -/

/-- C3: a negative handle makes `PV_GET_BUF` return at once with `-1` in the
output slot and nothing else changed (no buffer bound, no lock taken, pools
untouched); `PV_GET_BUF2` does the same as soon as one of its two handles is
negative. -/
theorem negative_handle_returns_sentinel {F C : Type} (u : PV_Unit F C) :
    (u.in0 < 0 → PV_GET_BUF u = .ok (.returned { u with out0 := -1 })) ∧
    (u.in0 < 0 ∨ u.in1 < 0 → PV_GET_BUF2 u = .ok (.returned { u with out0 := -1 })) := by
  constructor
  · intro h
    simp only [PV_GET_BUF, PV_GET_BUF_bind, h, if_true]
    rfl
  · intro h
    simp only [PV_GET_BUF2, PV_GET_BUF2_bind, h, if_true]
    rfl

/-- Witness of C3: handle `-1` for the single-buffer block, handles `1` and
`-1/2` for the two-buffer block. -/
theorem negative_handle_returns_sentinel_witness :
    (sampleUnit (-1) 3).in0 < 0 ∧
    PV_GET_BUF (sampleUnit (-1) 3) = .ok (.returned { sampleUnit (-1) 3 with out0 := -1 }) ∧
    PV_GET_BUF2 (sampleUnit 1 (-1 / 2)) =
      .ok (.returned { sampleUnit 1 (-1 / 2) with out0 := -1 }) :=
  ⟨by norm_num [sampleUnit],
   (negative_handle_returns_sentinel (sampleUnit (-1) 3)).1 (by norm_num [sampleUnit]),
   (negative_handle_returns_sentinel (sampleUnit 1 (-1 / 2))).2
     (Or.inr (by norm_num [sampleUnit]))⟩

/-- C4: the fall-back to shared slot 0 is missed by the code.  With four shared
and two local buffers, handle `6` has local index `2`, outside the local pool
`0, 1`, and handle `3000000000` has local index `2999999996`; in both cases
`PV_GET_BUF` takes the local branch (slots `2` and `-1294967300`) instead of
`world->mSndBufs`, and the read of `buf->samples` is out of bounds. -/
theorem fallback_missed_at_boundary_and_wrap :
    PV_GET_BUF_bind (sampleUnit 6 0) =
      .ok (.next { sampleUnit 6 0 with out0 := 6 } ⟨6, .localBuf 2⟩) ∧
    PV_GET_BUF (sampleUnit 6 0) = .error (.bufOutOfBounds (.localBuf 2)) ∧
    PV_GET_BUF_bind (sampleUnit 3000000000 0) =
      .ok (.next { sampleUnit 3000000000 0 with out0 := 3000000000 }
        ⟨3000000000, .localBuf (-1294967300)⟩) ∧
    PV_GET_BUF (sampleUnit 3000000000 0) =
      .error (.bufOutOfBounds (.localBuf (-1294967300))) :=
  ⟨rfl, rfl, rfl, rfl⟩

/-- C5: the code binds outside both pools.  With a non-empty shared pool (four
buffers) and two local buffers, the non-negative handle `4000000000` makes
`PV_GET_BUF` bind graph-local slot `-294967300`, which is not inside either
pool; handle `6` makes `PV_GET_BUF2` bind graph-local slot `2`, one past the
last local buffer, for both of its buffers. -/
theorem binding_out_of_bounds :
    0 < (sampleUnit 4000000000 0).mWorld.mNumSndBufs ∧
    PV_GET_BUF_bind (sampleUnit 4000000000 0) =
      .ok (.next { sampleUnit 4000000000 0 with out0 := 4000000000 }
        ⟨4000000000, .localBuf (-294967300)⟩) ∧
    ¬ SlotInBounds (sampleUnit 4000000000 0) (.localBuf (-294967300)) ∧
    PV_GET_BUF (sampleUnit 4000000000 0) =
      .error (.bufOutOfBounds (.localBuf (-294967300))) ∧
    PV_GET_BUF2_bind (sampleUnit 6 6) =
      .ok (.next { sampleUnit 6 6 with out0 := 6 } ⟨6, 6, .localBuf 2, .localBuf 2⟩) ∧
    ¬ SlotInBounds (sampleUnit 6 6) (.localBuf 2) :=
  ⟨by decide, rfl, by simp [SlotInBounds], rfl, rfl, by simp [SlotInBounds, sampleUnit]⟩

/-- C6: the resolution rule.  In a unit whose pools are well formed, for every
non-negative handle with integral part `i`: if `i < mNumSndBufs` then
`PV_GET_BUF` binds (and locks, and reads the bin count of) shared slot `i`;
otherwise, if `local = i - mNumSndBufs` satisfies `local < localBufNum`, it binds
graph-local slot `local`.  In both cases the block falls through. -/
theorem resolution_rule {F C : Type} (u : PV_Unit F C) (hwf : PoolsWellFormed u)
    (h0 : 0 ≤ u.in0) :
    (truncToInt u.in0 < (u.mWorld.mNumSndBufs : Int) →
      ∃ b, deref u (.shared (truncToInt u.in0).toNat) = some b ∧
        PV_GET_BUF u = .ok (.next
          (LOCK_SNDBUF { u with out0 := u.in0 } (.shared (truncToInt u.in0).toNat))
          ⟨(truncToInt u.in0).toNat, .shared (truncToInt u.in0).toNat,
            numbinsOf b.samples⟩)) ∧
    ((u.mWorld.mNumSndBufs : Int) ≤ truncToInt u.in0 →
      truncToInt u.in0 - (u.mWorld.mNumSndBufs : Int) < u.mParent.localBufNum →
      ∃ b, deref u (.localBuf (truncToInt u.in0 - (u.mWorld.mNumSndBufs : Int))) = some b ∧
        PV_GET_BUF u = .ok (.next
          (LOCK_SNDBUF { u with out0 := u.in0 }
            (.localBuf (truncToInt u.in0 - (u.mWorld.mNumSndBufs : Int))))
          ⟨(truncToInt u.in0).toNat,
            .localBuf (truncToInt u.in0 - (u.mWorld.mNumSndBufs : Int)),
            numbinsOf b.samples⟩)) := by
  obtain ⟨hlen, hl0, hllen, hl31, hsum⟩ := hwf
  have ht := truncToInt_nonneg u.in0 h0
  constructor
  · intro hi
    have hlt : truncToInt u.in0 < 2 ^ 32 := by omega
    have hnat : (truncToInt u.in0).toNat < u.mWorld.mSndBufs.length := by omega
    refine ⟨u.mWorld.mSndBufs[(truncToInt u.in0).toNat], ?_, ?_⟩
    · simp [deref, List.getElem?_eq_getElem hnat]
    · have hb := PV_GET_BUF_bind_nonneg u h0 hlt
      rw [if_neg (by omega)] at hb
      exact PV_GET_BUF_of_bind u _ _ _ hb (by simp [deref, LOCK_SNDBUF, List.getElem?_eq_getElem hnat])
  · intro hi hloc
    have hlt : truncToInt u.in0 < 2 ^ 32 := by omega
    have hidx : uint32ToInt32 (uint32Sub (truncToInt u.in0).toNat u.mWorld.mNumSndBufs)
        = truncToInt u.in0 - (u.mWorld.mNumSndBufs : Int) := by
      rw [localIndex_eq _ _ (by omega) (by omega) (by omega)]
      omega
    have hnat : (truncToInt u.in0 - (u.mWorld.mNumSndBufs : Int)).toNat
        < u.mParent.mLocalSndBufs.length := by omega
    have hge : (0 : Int) ≤ truncToInt u.in0 - (u.mWorld.mNumSndBufs : Int) := by omega
    refine ⟨u.mParent.mLocalSndBufs[(truncToInt u.in0 - (u.mWorld.mNumSndBufs : Int)).toNat], ?_, ?_⟩
    · simp [deref, hge, List.getElem?_eq_getElem hnat]
    · have hb := PV_GET_BUF_bind_nonneg u h0 hlt
      rw [if_pos (by omega), hidx, if_pos (by omega)] at hb
      exact PV_GET_BUF_of_bind u _ _ _ hb
        (by simp [deref, LOCK_SNDBUF, hge, List.getElem?_eq_getElem hnat])

/-- Witness of C6: handle `5` with four shared and two local buffers resolves
to graph-local slot `1`. -/
theorem resolution_rule_witness :
    PoolsWellFormed (sampleUnit 5 0) ∧ 0 ≤ (sampleUnit 5 0).in0 ∧
    ((sampleUnit 5 0).mWorld.mNumSndBufs : Int) ≤ truncToInt (sampleUnit 5 0).in0 ∧
    truncToInt (sampleUnit 5 0).in0 - ((sampleUnit 5 0).mWorld.mNumSndBufs : Int)
      < (sampleUnit 5 0).mParent.localBufNum ∧
    ∃ b, deref (sampleUnit 5 0) (.localBuf 1) = some b ∧
      PV_GET_BUF (sampleUnit 5 0) = .ok (.next
        (LOCK_SNDBUF { sampleUnit 5 0 with out0 := 5 } (.localBuf 1))
        ⟨5, .localBuf 1, numbinsOf b.samples⟩) :=
  ⟨sampleUnit_wf 5 0, by decide, by decide, by decide,
   (resolution_rule (sampleUnit 5 0) (sampleUnit_wf 5 0) (by decide)).2 (by decide) (by decide)⟩

/-- C7: resolution depends only on the truncated handle.  For every
non-negative handle, `PV_GET_BUF` run with the handle replaced by its integral
part leaves the same locals in scope (the same index, the same slot in the same
pool, the same bin count), and faults in the same cases. -/
theorem resolution_uses_truncated_handle {F C : Type} (u : PV_Unit F C) (h0 : 0 ≤ u.in0) :
    (PV_GET_BUF { u with in0 := (truncToInt u.in0 : ℚ) }).map Flow.locals?
      = (PV_GET_BUF u).map Flow.locals? := by
  have ht := truncToInt_nonneg u.in0 h0
  have h0' : (0 : ℚ) ≤ ({ u with in0 := (truncToInt u.in0 : ℚ) } : PV_Unit F C).in0 := by
    show (0 : ℚ) ≤ (truncToInt u.in0 : ℚ)
    exact_mod_cast ht
  have ht' : truncToInt ({ u with in0 := (truncToInt u.in0 : ℚ) } : PV_Unit F C).in0
      = truncToInt u.in0 := truncToInt_intCast _
  by_cases hlt : truncToInt u.in0 < 2 ^ 32
  · have hb := PV_GET_BUF_bind_nonneg u h0 hlt
    have hb' := PV_GET_BUF_bind_nonneg _ h0' (ht'.symm ▸ hlt)
    simp only [ht'] at hb'
    rw [PV_GET_BUF_locals_of_bind u _ u _ hb rfl rfl,
      PV_GET_BUF_locals_of_bind _ _ u _ hb' rfl rfl]
  · have hb := PV_GET_BUF_bind_cast_fault u h0 hlt
    have hb' := PV_GET_BUF_bind_cast_fault _ h0' (ht'.symm ▸ hlt)
    unfold PV_GET_BUF
    rw [hb, hb']

/-- Witness of C7: handle `3.7` resolves as handle `3`. -/
theorem resolution_uses_truncated_handle_witness :
    0 ≤ (sampleUnit 3.7 0).in0 ∧
    (PV_GET_BUF { sampleUnit 3.7 0 with in0 := ((3 : Int) : ℚ) }).map Flow.locals?
      = (PV_GET_BUF (sampleUnit 3.7 0)).map Flow.locals? :=
  ⟨by norm_num [sampleUnit],
   truncToInt_37 ▸ resolution_uses_truncated_handle (sampleUnit 3.7 0) (by norm_num [sampleUnit])⟩

/-- C8: a pair of frames with different bin counts aborts.  Whenever
`PV_GET_BUF2` has chosen two buffers (which needs both handles non-negative) and
these hold frames `f1`, `f2` whose bin counts differ, the block executes
`return;` and leaves both pools as they were; in particular the two slots still
hold `f1` and `f2` (same data, sample count and tag). -/
theorem pair_mismatch_aborts {F C : Type} (u u1 : PV_Unit F C) (l : Buf2Locals)
    (f1 f2 : SndBuf F C) (hb : PV_GET_BUF2_bind u = .ok (.next u1 l))
    (h1 : deref u l.buf1 = some f1) (h2 : deref u l.buf2 = some f2)
    (hne : numbinsOf f1.samples ≠ numbinsOf f2.samples) :
    ∃ v, PV_GET_BUF2 u = .ok (.returned v) ∧ v.mWorld = u.mWorld ∧
      v.mParent = u.mParent ∧ deref v l.buf1 = some f1 ∧ deref v l.buf2 = some f2 := by
  have hs : f1.samples ≠ f2.samples := fun h => hne (by rw [h])
  refine ⟨LOCK_SNDBUF2 { u with out0 := u.in0 } l.buf1 l.buf2, ?_, rfl, rfl, ?_, ?_⟩
  · rw [PV_GET_BUF2_of_bind u u1 l f1 f2 hb h1 h2, if_pos hs]
  · exact (deref_congr u _ rfl rfl l.buf1).trans h1
  · exact (deref_congr u _ rfl rfl l.buf2).trans h2

/-- Witness of C8: shared slots `1` (two bins) and `2` (three bins). -/
theorem pair_mismatch_aborts_witness :
    PV_GET_BUF2_bind (sampleUnit 1 2) =
      .ok (.next { sampleUnit 1 2 with out0 := 1 } ⟨1, 2, .shared 1, .shared 2⟩) ∧
    deref (sampleUnit 1 2) (.shared 1) = some sampleFrame ∧
    deref (sampleUnit 1 2) (.shared 2) = some sampleFrame8 ∧
    numbinsOf sampleFrame.samples ≠ numbinsOf sampleFrame8.samples ∧
    ∃ v, PV_GET_BUF2 (sampleUnit 1 2) = .ok (.returned v) ∧
      v.mWorld = (sampleUnit 1 2).mWorld ∧ v.mParent = (sampleUnit 1 2).mParent ∧
      deref v (.shared 1) = some sampleFrame ∧ deref v (.shared 2) = some sampleFrame8 :=
  ⟨rfl, rfl, rfl, by decide,
   pair_mismatch_aborts (sampleUnit 1 2) { sampleUnit 1 2 with out0 := 1 }
     ⟨1, 2, .shared 1, .shared 2⟩ sampleFrame sampleFrame8 rfl rfl rfl (by decide)⟩

/-- C9: the two blocks do not truncate alike.  `PV_GET_BUF` converts the handle
with `(uint32)`, `PV_GET_BUF2` with `(int)`.  Handle `2147483648` (`2^31`) is
resolved by `PV_GET_BUF` to shared slot 0 and handle `3000000000` to graph-local
slot `-1294967300`, while in `PV_GET_BUF2` the conversion of either value, as
first or as second handle, is not representable and no slot is defined. -/
theorem pair_cast_diverges_from_single :
    PV_GET_BUF_bind (sampleUnit 2147483648 0) =
      .ok (.next { sampleUnit 2147483648 0 with out0 := 2147483648 }
        ⟨2147483648, .shared 0⟩) ∧
    PV_GET_BUF2_bind (sampleUnit 2147483648 0) = .error .castOutOfRange ∧
    PV_GET_BUF_bind (sampleUnit 3000000000 1) =
      .ok (.next { sampleUnit 3000000000 1 with out0 := 3000000000 }
        ⟨3000000000, .localBuf (-1294967300)⟩) ∧
    PV_GET_BUF2_bind (sampleUnit 3000000000 1) = .error .castOutOfRange ∧
    PV_GET_BUF2_bind (sampleUnit 1 3000000000) = .error .castOutOfRange :=
  ⟨rfl, rfl, rfl, rfl, rfl⟩

/-- C10: the handle is echoed unchanged.  For a non-negative handle, whenever
`PV_GET_BUF` completes, the output slot holds exactly `ZIN0(0)`; for two
non-negative handles, whenever `PV_GET_BUF2` completes, the output slot holds
exactly the first handle `ZIN0(0)`, whatever the second one is. -/
theorem echo_of_handle {F C : Type} (u : PV_Unit F C) :
    (∀ fl, 0 ≤ u.in0 → PV_GET_BUF u = .ok fl → fl.state.out0 = u.in0) ∧
    (∀ fl, 0 ≤ u.in0 → 0 ≤ u.in1 → PV_GET_BUF2 u = .ok fl → fl.state.out0 = u.in0) := by
  constructor
  · intro fl h0 h
    unfold PV_GET_BUF at h
    cases hb : PV_GET_BUF_bind u with
    | error e => simp [hb, bind, Except.bind] at h
    | ok r =>
      cases r with
      | returned v => exact absurd (PV_GET_BUF_bind_returned u v hb) (not_lt.mpr h0)
      | next v l =>
        obtain ⟨hv, _⟩ := PV_GET_BUF_bind_next u v l hb
        simp only [hb, bind, Except.bind] at h
        cases hd : deref (LOCK_SNDBUF v l.buf) l.buf with
        | none => simp [hd] at h
        | some b =>
          simp only [hd] at h
          injection h with h
          subst h
          subst hv
          rfl
  · intro fl h0 h1 h
    unfold PV_GET_BUF2 at h
    cases hb : PV_GET_BUF2_bind u with
    | error e => simp [hb, bind, Except.bind] at h
    | ok r =>
      cases r with
      | returned v =>
        rcases PV_GET_BUF2_bind_returned u v hb with hn | hn
        · exact absurd hn (not_lt.mpr h0)
        · exact absurd hn (not_lt.mpr h1)
      | next v l =>
        obtain ⟨hv, _, _⟩ := PV_GET_BUF2_bind_next u v l hb
        simp only [hb, bind, Except.bind] at h
        cases hd1 : deref (LOCK_SNDBUF2 v l.buf1 l.buf2) l.buf1 with
        | none => simp [hd1] at h
        | some b1 =>
          cases hd2 : deref (LOCK_SNDBUF2 v l.buf1 l.buf2) l.buf2 with
          | none => simp [hd1, hd2] at h
          | some b2 =>
            simp only [hd1, hd2] at h
            subst hv
            split_ifs at h <;>
            · injection h with h
              subst h
              rfl

/-- Witness of C10: handle `7` falls back to shared slot 0 and the output slot
holds `7`; handles `1` and `3` resolve together and the output slot holds `1`. -/
theorem echo_of_handle_witness :
    0 ≤ (sampleUnit 7 0).in0 ∧
    PV_GET_BUF (sampleUnit 7 0) =
      .ok (.next (LOCK_SNDBUF { sampleUnit 7 0 with out0 := 7 } (.shared 0))
        ⟨7, .shared 0, 2⟩) ∧
    (Flow.next (LOCK_SNDBUF { sampleUnit 7 0 with out0 := 7 } (.shared 0))
        (⟨7, .shared 0, 2⟩ : PVLocals)).state.out0 = (sampleUnit 7 0).in0 ∧
    0 ≤ (sampleUnit 1 3).in1 ∧
    PV_GET_BUF2 (sampleUnit 1 3) =
      .ok (.next (LOCK_SNDBUF2 { sampleUnit 1 3 with out0 := 1 } (.shared 1) (.shared 3))
        ⟨1, 3, .shared 1, .shared 3, 2⟩) ∧
    (Flow.next (LOCK_SNDBUF2 { sampleUnit 1 3 with out0 := 1 } (.shared 1) (.shared 3))
        (⟨1, 3, .shared 1, .shared 3, 2⟩ : PV2Locals)).state.out0 = (sampleUnit 1 3).in0 :=
  ⟨by decide, rfl, (echo_of_handle (sampleUnit 7 0)).1 _ (by decide) rfl,
   by decide, rfl, (echo_of_handle (sampleUnit 1 3)).2 _ (by decide) (by decide) rfl⟩

/-! ## Further claims on the coordinate conversion -/

/-- C11: on a well-formed frame with `n ≥ 2` samples in rectangular mode,
`ToPolarApx` replaces the two floats of every bin `i` with `0 ≤ i < (n - 2) / 2`
by the per-bin polar conversion of the pair the bin held before the call, keeps
every other float of the storage (`dc`, `nyq` and anything past the last bin),
keeps the sample count and sets the tag to polar; `ToComplexApx` does the same
on a frame in polar mode with the per-bin rectangular conversion. -/
theorem conversion_rewrites_exactly_the_bins {F C : Type} [DecidableEq C] (env : Env F C)
    (buf : SndBuf F C) (hwf : buf.WellFormed) (hn : 2 ≤ buf.samples) :
    (buf.coord = env.coord_Complex →
      ∃ b, ToPolarApx env buf = .ok b ∧ b.samples = buf.samples ∧
        b.coord = env.coord_Polar ∧ b.data.length = buf.data.length ∧
        (∀ i : Nat, (i : Int) < (buf.samples - 2) / 2 →
          ∃ re im, buf.data[2 + 2 * i]? = some re ∧ buf.data[3 + 2 * i]? = some im ∧
            b.data[2 + 2 * i]? = some (env.ToPolarApxInPlace (re, im)).1 ∧
            b.data[3 + 2 * i]? = some (env.ToPolarApxInPlace (re, im)).2) ∧
        (∀ j : Nat, (j < 2 ∨ 2 + 2 * ((buf.samples - 2) / 2) ≤ (j : Int)) →
          b.data[j]? = buf.data[j]?)) ∧
    (buf.coord = env.coord_Polar →
      ∃ b, ToComplexApx env buf = .ok b ∧ b.samples = buf.samples ∧
        b.coord = env.coord_Complex ∧ b.data.length = buf.data.length ∧
        (∀ i : Nat, (i : Int) < (buf.samples - 2) / 2 →
          ∃ mag phase, buf.data[2 + 2 * i]? = some mag ∧ buf.data[3 + 2 * i]? = some phase ∧
            b.data[2 + 2 * i]? = some (env.ToComplexApxInPlace (mag, phase)).1 ∧
            b.data[3 + 2 * i]? = some (env.ToComplexApxInPlace (mag, phase)).2) ∧
        (∀ j : Nat, (j < 2 ∨ 2 + 2 * ((buf.samples - 2) / 2) ≤ (j : Int)) →
          b.data[j]? = buf.data[j]?)) := by
  constructor
  · intro hc
    obtain ⟨d, hd, hlen, hbins, hrest⟩ := convertedBins env.ToPolarApxInPlace buf hwf hn
    refine ⟨{ buf with data := d, coord := env.coord_Polar }, ?_, rfl, rfl, hlen, hbins, hrest⟩
    unfold ToPolarApx
    simp only [hc, if_true, hd]
    rfl
  · intro hc
    obtain ⟨d, hd, hlen, hbins, hrest⟩ := convertedBins env.ToComplexApxInPlace buf hwf hn
    refine ⟨{ buf with data := d, coord := env.coord_Complex }, ?_, rfl, rfl, hlen, hbins, hrest⟩
    unfold ToComplexApx
    simp only [hc, if_true, hd]
    rfl

/-- Witness of C11: a frame of 128 floats has 63 bins. -/
theorem conversion_rewrites_exactly_the_bins_witness :
    (zeroFrame 128).WellFormed ∧ 2 ≤ (zeroFrame 128).samples ∧
    (zeroFrame 128).coord = sampleEnv.coord_Complex ∧
    ((zeroFrame 128).samples - 2) / 2 = 63 ∧
    ∃ b, ToPolarApx sampleEnv (zeroFrame 128) = .ok b ∧ b.samples = (zeroFrame 128).samples ∧
      b.coord = sampleEnv.coord_Polar ∧ b.data.length = (zeroFrame 128).data.length ∧
      (∀ i : Nat, (i : Int) < ((zeroFrame 128).samples - 2) / 2 →
        ∃ re im, (zeroFrame 128).data[2 + 2 * i]? = some re ∧
          (zeroFrame 128).data[3 + 2 * i]? = some im ∧
          b.data[2 + 2 * i]? = some (sampleEnv.ToPolarApxInPlace (re, im)).1 ∧
          b.data[3 + 2 * i]? = some (sampleEnv.ToPolarApxInPlace (re, im)).2) ∧
      (∀ j : Nat, (j < 2 ∨ 2 + 2 * (((zeroFrame 128).samples - 2) / 2) ≤ (j : Int)) →
        b.data[j]? = (zeroFrame 128).data[j]?) :=
  ⟨zeroFrame_wf 128, by decide, rfl, by decide,
   (conversion_rewrites_exactly_the_bins sampleEnv (zeroFrame 128) (zeroFrame_wf 128)
     (by decide)).1 rfl⟩

/-! ## Claims on the scratch block and on the degenerate state -/

/-- C12: when a scratch block exists and the current bin count differs from the
recorded `m_numbins`, `MAKE_TEMP_BUF` executes `return;` and leaves the whole
unit as it was: no request to the real-time pool, `m_tempbuf` and `m_numbins`
unchanged. -/
theorem temp_buf_mismatch_returns {F C : Type} (u : FFTUnit F C) (buf : SlotRef)
    (numbins : Int) (blk : Block) (hb : u.m_tempbuf = some blk)
    (hne : numbins ≠ u.m_numbins) :
    MAKE_TEMP_BUF u buf numbins = .ok (.returned u) := by
  unfold MAKE_TEMP_BUF
  simp [hb, hne]

/-- Witness of C12: a block of 32 bytes recorded for 3 bins, current bin count 2. -/
theorem temp_buf_mismatch_returns_witness :
    ({ sampleFFTUnit 10 with m_tempbuf := some ⟨0, 32⟩, m_numbins := 3 } :
        FFTUnit Int Nat).m_tempbuf = some ⟨0, 32⟩ ∧
    (2 : Int) ≠ ({ sampleFFTUnit 10 with m_tempbuf := some ⟨0, 32⟩, m_numbins := 3 } :
        FFTUnit Int Nat).m_numbins ∧
    MAKE_TEMP_BUF { sampleFFTUnit 10 with m_tempbuf := some ⟨0, 32⟩, m_numbins := 3 }
        (.shared 1) 2 =
      .ok (.returned { sampleFFTUnit 10 with m_tempbuf := some ⟨0, 32⟩, m_numbins := 3 }) :=
  ⟨rfl, by decide,
   temp_buf_mismatch_returns _ (.shared 1) 2 ⟨0, 32⟩ rfl (by decide)⟩

/-- C13: `MAKE_TEMP_BUF` acquires lazily and reuses.  Without a scratch block it
makes exactly one request to the real-time pool, of `buf->samples` floats (4
bytes each), stores the result in `m_tempbuf`, records the current bin count in
`m_numbins` and falls through; with a scratch block and the recorded bin count
it falls through with the unit unchanged (no request). -/
theorem temp_buf_lazy_and_reused {F C : Type} (u : FFTUnit F C) (buf : SlotRef)
    (numbins : Int) :
    (∀ b, u.m_tempbuf = none → deref u.toPV_Unit buf = some b →
      ∃ v, MAKE_TEMP_BUF u buf numbins = .ok (.next v ()) ∧
        v.rtPool.requests = u.rtPool.requests ++ [tempBufBytes b.samples] ∧
        (0 ≤ b.samples → b.samples < 2 ^ 62 → tempBufBytes b.samples = 4 * b.samples.toNat) ∧
        (tempBufBytes b.samples ≤ u.rtPool.free →
          ∃ blk, v.m_tempbuf = some blk ∧ blk.bytes = tempBufBytes b.samples) ∧
        v.m_numbins = numbins ∧ v.toPV_Unit = u.toPV_Unit ∧
        v.mCalcFunc = u.mCalcFunc ∧ v.mDone = u.mDone ∧ v.printed = u.printed) ∧
    (∀ blk, u.m_tempbuf = some blk → numbins = u.m_numbins →
      MAKE_TEMP_BUF u buf numbins = .ok (.next u ())) := by
  constructor
  · intro b hnone hd
    refine ⟨{ u with m_tempbuf := (RTAlloc u.rtPool (tempBufBytes b.samples)).1,
                     rtPool := (RTAlloc u.rtPool (tempBufBytes b.samples)).2,
                     m_numbins := numbins }, ?_, ?_, ?_, ?_, rfl, rfl, rfl, rfl, rfl⟩
    · unfold MAKE_TEMP_BUF
      simp [hnone, hd]
    · show (RTAlloc u.rtPool (tempBufBytes b.samples)).2.requests = _
      unfold RTAlloc
      split_ifs <;> rfl
    · exact tempBufBytes_eq b.samples
    · intro hfree
      show ∃ blk, (RTAlloc u.rtPool (tempBufBytes b.samples)).1 = some blk ∧ _
      unfold RTAlloc
      rw [if_pos hfree]
      exact ⟨_, rfl, rfl⟩
  · intro blk hb he
    unfold MAKE_TEMP_BUF
    simp [hb, he]

/-- Witness of C13: a frame of 8 floats requests 32 bytes; a unit that already
holds the block is left alone. -/
theorem temp_buf_lazy_and_reused_witness :
    (sampleFFTUnit 100).m_tempbuf = none ∧
    deref (sampleFFTUnit 100).toPV_Unit (.shared 2) = some sampleFrame8 ∧
    (∃ v, MAKE_TEMP_BUF (sampleFFTUnit 100) (.shared 2) 3 = .ok (.next v ()) ∧
        v.rtPool.requests = (sampleFFTUnit 100).rtPool.requests ++
          [tempBufBytes sampleFrame8.samples] ∧
        (0 ≤ sampleFrame8.samples → sampleFrame8.samples < 2 ^ 62 →
          tempBufBytes sampleFrame8.samples = 4 * sampleFrame8.samples.toNat) ∧
        (tempBufBytes sampleFrame8.samples ≤ (sampleFFTUnit 100).rtPool.free →
          ∃ blk, v.m_tempbuf = some blk ∧ blk.bytes = tempBufBytes sampleFrame8.samples) ∧
        v.m_numbins = 3 ∧ v.toPV_Unit = (sampleFFTUnit 100).toPV_Unit ∧
        v.mCalcFunc = (sampleFFTUnit 100).mCalcFunc ∧ v.mDone = (sampleFFTUnit 100).mDone ∧
        v.printed = (sampleFFTUnit 100).printed) ∧
    MAKE_TEMP_BUF { sampleFFTUnit 68 with m_tempbuf := some ⟨0, 32⟩, m_numbins := 3 }
        (.shared 2) 3 =
      .ok (.next { sampleFFTUnit 68 with m_tempbuf := some ⟨0, 32⟩, m_numbins := 3 } ()) :=
  ⟨rfl, rfl,
   (temp_buf_lazy_and_reused (sampleFFTUnit 100) (.shared 2) 3).1 sampleFrame8 rfl rfl,
   (temp_buf_lazy_and_reused
     { sampleFFTUnit 68 with m_tempbuf := some ⟨0, 32⟩, m_numbins := 3 } (.shared 2) 3).2
     ⟨0, 32⟩ rfl rfl⟩

/-- C14: a failed scratch allocation is not handled by `MAKE_TEMP_BUF`.  With 10
bytes left in the real-time pool the request of 32 bytes fails; the block
stores the null pointer, records the bin count and falls through without a
diagnostic, with the calc function and `mDone` unchanged; expanded again on the
next invocation it repeats the request. -/
theorem failed_alloc_is_not_guarded :
    MAKE_TEMP_BUF (sampleFFTUnit 10) (.shared 2) 3 =
      .ok (.next { sampleFFTUnit 10 with m_numbins := 3, rtPool := ⟨10, [32]⟩ } ()) ∧
    ({ sampleFFTUnit 10 with m_numbins := 3, rtPool := ⟨10, [32]⟩ } :
        FFTUnit Int Nat).m_tempbuf = none ∧
    ({ sampleFFTUnit 10 with m_numbins := 3, rtPool := ⟨10, [32]⟩ } :
        FFTUnit Int Nat).printed = [] ∧
    ({ sampleFFTUnit 10 with m_numbins := 3, rtPool := ⟨10, [32]⟩ } :
        FFTUnit Int Nat).mCalcFunc = .own ∧
    ({ sampleFFTUnit 10 with m_numbins := 3, rtPool := ⟨10, [32]⟩ } :
        FFTUnit Int Nat).mDone = false ∧
    MAKE_TEMP_BUF { sampleFFTUnit 10 with m_numbins := 3, rtPool := ⟨10, [32]⟩ }
        (.shared 2) 3 =
      .ok (.next { sampleFFTUnit 10 with m_numbins := 3, rtPool := ⟨10, [32, 32]⟩ } ()) :=
  ⟨rfl, rfl, rfl, rfl, rfl, rfl⟩

/-- C15: `ClearFFTUnitIfMemFailed` with a false condition appends exactly one
diagnostic, registers `FFT_ClearUnitOutputs`, sets `mDone` and returns; with a
true condition it changes nothing and falls through.  `FFT_ClearUnitOutputs`
only writes `-1` to the output slot, so after any number `k + 1` of later audio
blocks the unit is still in that state: same calc function, `mDone` set, same
pools, no further diagnostic. -/
theorem degenerate_is_terminal {F C : Type} (func : String) (u : FFTUnit F C)
    (own : FFTUnit F C → Int → FFTUnit F C) (n : Int) (k : Nat) :
    ClearFFTUnitIfMemFailed func false u =
      .returned { u with printed := u.printed ++ [.allocFailed func],
                         mCalcFunc := .FFT_ClearUnitOutputs, mDone := true } ∧
    ClearFFTUnitIfMemFailed func true u = .next u () ∧
    FFT_ClearUnitOutputs u n = { u with out0 := -1 } ∧
    (calcBlock own n)^[k + 1] (ClearFFTUnitIfMemFailed func false u).state =
      { u with out0 := -1, printed := u.printed ++ [.allocFailed func],
               mCalcFunc := .FFT_ClearUnitOutputs, mDone := true } := by
  refine ⟨rfl, rfl, rfl, ?_⟩
  induction k with
  | zero => rfl
  | succ j ih =>
    rw [Function.iterate_succ_apply', ih]
    rfl

/-! ## Claims on the tag, on the loop bounds and on the pair test -/

/-- C17, as stated, fails: a frame whose tag is neither of the two named tags
(here `0`, with `coord_Complex = 1` and `coord_Polar = 2`) is returned unchanged
by both conversions, so its tag is not the target afterwards. -/
theorem other_tag_is_kept :
    ({ sampleFrame with coord := 0 } : SndBuf Int Nat).WellFormed ∧
    ToPolarApx sampleEnv { sampleFrame with coord := 0 } = .ok { sampleFrame with coord := 0 } ∧
    ({ sampleFrame with coord := 0 } : SndBuf Int Nat).coord ≠ sampleEnv.coord_Polar ∧
    ToComplexApx sampleEnv { sampleFrame with coord := 0 } =
      .ok { sampleFrame with coord := 0 } ∧
    ({ sampleFrame with coord := 0 } : SndBuf Int Nat).coord ≠ sampleEnv.coord_Complex :=
  ⟨by simp [SndBuf.WellFormed, sampleFrame], rfl, by decide, rfl, by decide⟩

/-- C17, amended: on a well-formed frame whose tag is `coord_Complex` or
`coord_Polar`, the tag is `coord_Polar` after `ToPolarApx` and `coord_Complex`
after `ToComplexApx`; a frame with any other tag is returned unchanged by both;
and `ToComplexApx` after `ToPolarApx` on a rectangular frame ends with the tag
`coord_Complex`. -/
theorem tag_equals_target {F C : Type} [DecidableEq C] (env : Env F C)
    (buf : SndBuf F C) (hwf : buf.WellFormed) :
    (buf.coord = env.coord_Complex ∨ buf.coord = env.coord_Polar →
      (∃ b, ToPolarApx env buf = .ok b ∧ b.coord = env.coord_Polar) ∧
      (∃ b, ToComplexApx env buf = .ok b ∧ b.coord = env.coord_Complex)) ∧
    (buf.coord ≠ env.coord_Complex → buf.coord ≠ env.coord_Polar →
      ToPolarApx env buf = .ok buf ∧ ToComplexApx env buf = .ok buf) ∧
    (buf.coord = env.coord_Complex →
      ∃ b1 b2, ToPolarApx env buf = .ok b1 ∧ ToComplexApx env b1 = .ok b2 ∧
        b2.coord = env.coord_Complex) := by
  refine ⟨?_, ?_, ?_⟩
  · rintro (hc | hp)
    · obtain ⟨b, hb, hbc, _⟩ := ToPolarApx_of_complex env buf hwf hc
      have hne : buf.coord ≠ env.coord_Polar := fun h => env.distinct (hc.symm.trans h)
      exact ⟨⟨b, hb, hbc⟩, ⟨buf, ToComplexApx_of_other_tag env buf hne, hc⟩⟩
    · obtain ⟨b, hb, hbc, _⟩ := ToComplexApx_of_polar env buf hwf hp
      have hne : buf.coord ≠ env.coord_Complex := fun h => env.distinct (h.symm.trans hp)
      exact ⟨⟨buf, ToPolarApx_of_other_tag env buf hne, hp⟩, ⟨b, hb, hbc⟩⟩
  · intro h1 h2
    exact ⟨ToPolarApx_of_other_tag env buf h1, ToComplexApx_of_other_tag env buf h2⟩
  · intro hc
    obtain ⟨b1, hb1, hb1c, hb1wf⟩ := ToPolarApx_of_complex env buf hwf hc
    obtain ⟨b2, hb2, hb2c, _⟩ := ToComplexApx_of_polar env b1 hb1wf hb1c
    exact ⟨b1, b2, hb1, hb2, hb2c⟩

/-- Witness of C17 (amended) on a rectangular frame with two bins. -/
theorem tag_equals_target_witness :
    sampleFrame.WellFormed ∧ sampleFrame.coord = sampleEnv.coord_Complex ∧
    ((∃ b, ToPolarApx sampleEnv sampleFrame = .ok b ∧ b.coord = sampleEnv.coord_Polar) ∧
      (∃ b, ToComplexApx sampleEnv sampleFrame = .ok b ∧ b.coord = sampleEnv.coord_Complex)) ∧
    (∃ b1 b2, ToPolarApx sampleEnv sampleFrame = .ok b1 ∧ ToComplexApx sampleEnv b1 = .ok b2 ∧
      b2.coord = sampleEnv.coord_Complex) :=
  ⟨sampleFrame_wf, rfl,
   (tag_equals_target sampleEnv sampleFrame sampleFrame_wf).1 (Or.inl rfl),
   (tag_equals_target sampleEnv sampleFrame sampleFrame_wf).2.2 rfl⟩

/-- C18: the conversion loop stays inside the storage.  For every integer `n`
and every `i` with `0 ≤ i < numbins`, `numbins = (n - 2) >> 1`, the float
indices `2 + 2 i` and `3 + 2 i` are below `n`; for `n < 4` the bin count is not
positive and the loop runs zero times; hence on a frame whose storage holds
`samples` floats neither conversion accesses a float outside the storage. -/
theorem conversion_loop_stays_in_storage :
    (∀ (n : Int) (i : Nat), (i : Int) < numbinsOf n →
      2 + 2 * (i : Int) < n ∧ 3 + 2 * (i : Int) < n) ∧
    (∀ n : Int, n < 4 → numbinsOf n ≤ 0 ∧ (numbinsOf n).toNat = 0) ∧
    (∀ (F C : Type) [DecidableEq C] (env : Env F C) (buf : SndBuf F C), buf.WellFormed →
      (∃ b, ToPolarApx env buf = .ok b) ∧ (∃ b, ToComplexApx env buf = .ok b)) := by
  refine ⟨?_, ?_, ?_⟩
  · intro n i hi
    rw [numbinsOf_eq] at hi
    omega
  · intro n hn
    rw [numbinsOf_eq]
    omega
  · intro F C _ env buf hwf
    obtain ⟨b, hb, _⟩ := ToPolarApx_ok env buf hwf
    obtain ⟨c, hc, _⟩ := ToComplexApx_ok env buf hwf
    exact ⟨⟨b, hb⟩, ⟨c, hc⟩⟩

/-- Witness of C18: `n = 129` (odd, 63 bins, last bin at floats 126 and 127),
`n = 3` (no bin) and a frame of 129 floats. -/
theorem conversion_loop_stays_in_storage_witness :
    ((62 : Nat) : Int) < numbinsOf 129 ∧
    (2 + 2 * ((62 : Nat) : Int) < 129 ∧ 3 + 2 * ((62 : Nat) : Int) < 129) ∧
    (3 : Int) < 4 ∧ (numbinsOf 3 ≤ 0 ∧ (numbinsOf 3).toNat = 0) ∧
    (zeroFrame 129).WellFormed ∧
    ((∃ b, ToPolarApx sampleEnv (zeroFrame 129) = .ok b) ∧
      (∃ b, ToComplexApx sampleEnv (zeroFrame 129) = .ok b)) :=
  ⟨by decide, conversion_loop_stays_in_storage.1 129 62 (by decide),
   by decide, conversion_loop_stays_in_storage.2.1 3 (by decide),
   zeroFrame_wf 129,
   conversion_loop_stays_in_storage.2.2 Int Nat sampleEnv (zeroFrame 129) (zeroFrame_wf 129)⟩

/-- C19: once `PV_GET_BUF2` has chosen two buffers holding frames `f1` and `f2`,
it executes `return;` exactly when their sample counts differ (equal bin counts
do not prevent it), and in every such return the output slot holds the first
handle, which is not the sentinel `-1`. -/
theorem pair_aborts_iff_samples_differ {F C : Type} (u u1 : PV_Unit F C) (l : Buf2Locals)
    (f1 f2 : SndBuf F C) (hb : PV_GET_BUF2_bind u = .ok (.next u1 l))
    (h1 : deref u l.buf1 = some f1) (h2 : deref u l.buf2 = some f2) :
    ((∃ v, PV_GET_BUF2 u = .ok (.returned v)) ↔ f1.samples ≠ f2.samples) ∧
    (∀ v, PV_GET_BUF2 u = .ok (.returned v) → v.out0 = u.in0 ∧ v.out0 ≠ -1) := by
  have hres := PV_GET_BUF2_of_bind u u1 l f1 f2 hb h1 h2
  obtain ⟨_, h0, _⟩ := PV_GET_BUF2_bind_next u u1 l hb
  constructor
  · constructor
    · rintro ⟨v, hv⟩
      intro heq
      rw [hres, if_neg (not_not.mpr heq)] at hv
      cases hv
    · intro hne
      exact ⟨_, by rw [hres, if_pos hne]⟩
  · intro v hv
    by_cases hne : f1.samples ≠ f2.samples
    · rw [hres, if_pos hne] at hv
      injection hv with hv
      injection hv with hv
      subst hv
      refine ⟨rfl, ?_⟩
      show u.in0 ≠ -1
      intro h
      rw [h] at h0
      norm_num at h0
    · rw [hres, if_neg hne] at hv
      cases hv

/-- Witness of C19: frames of 128 and 129 floats have 63 bins each and the pair
is refused, with the first handle `0` in the output slot. -/
theorem pair_aborts_iff_samples_differ_witness :
    PV_GET_BUF2_bind unevenUnit =
      .ok (.next { unevenUnit with out0 := 0 } ⟨0, 1, .shared 0, .shared 1⟩) ∧
    deref unevenUnit (.shared 0) = some (zeroFrame 128) ∧
    deref unevenUnit (.shared 1) = some (zeroFrame 129) ∧
    numbinsOf (zeroFrame 128).samples = 63 ∧ numbinsOf (zeroFrame 129).samples = 63 ∧
    (zeroFrame 128).samples ≠ (zeroFrame 129).samples ∧
    (∃ v, PV_GET_BUF2 unevenUnit = .ok (.returned v)) :=
  ⟨rfl, rfl, rfl, by decide, by decide, by decide,
   (pair_aborts_iff_samples_differ unevenUnit { unevenUnit with out0 := 0 }
     ⟨0, 1, .shared 0, .shared 1⟩ (zeroFrame 128) (zeroFrame 129) rfl rfl rfl).1.2
     (by decide)⟩

end FFTUGens
